import Mathlib

/-!
Shallow embedding of the core of the `Backtest` repository
(`src/backtest/portfolio.py`, `src/backtest/engine.py`,
`src/backtest/forecasting.py`, `src/backtest/risk.py`) in Lean 4.

Python floats are modelled as rationals (`ℚ`); float NaN values, where a
computation can produce them (pandas statistics of too-short series, numpy
log of non-positive ratios), are modelled as `Option ℚ` with `none` playing
the role of NaN and propagating through arithmetic. Fallible operations
return `Except`.
-/

namespace Backtest

/-- Calendar date, the part of a `pandas.Timestamp` the code inspects. -/
structure Date where
  year : Nat
  month : Nat
  day : Nat
deriving DecidableEq, Repr

/-- The quarter of a date, as `pandas.Timestamp.quarter` computes it:
months 1-3 give 1, 4-6 give 2, 7-9 give 3, 10-12 give 4. -/
def Date.quarter (d : Date) : Nat := (d.month - 1) / 3 + 1

/-- Rebalancing frequency of `Portfolio.rebalance_frequency`:
`buyAndHold` models the Python value `None`, the other three model the
strings "monthly", "quarterly", "annually". -/
inductive Frequency where
  | buyAndHold
  | monthly
  | quarterly
  | annually
deriving DecidableEq, Repr

/-- Embedding of `Portfolio.should_rebalance` (src/backtest/portfolio.py,
lines 27-65). The mutable field `self._last_rebalance_date` is made explicit:
the function takes the stored state (`none` models the Python value `None`)
and returns the decision together with the new state. -/
def should_rebalance (freq : Frequency) (last_rebalance_date : Option Date)
    (current_date : Date) : Bool × Option Date :=
  -- No rebalancing for "buy and hold" strategy
  if freq = Frequency.buyAndHold then (false, last_rebalance_date)
  else
    match last_rebalance_date with
    -- first check ever: record the date, do not rebalance yet
    | none => (false, some current_date)
    | some last =>
      match freq with
      | Frequency.monthly =>
        if current_date.month ≠ last.month then (true, some current_date)
        else (false, some last)
      | Frequency.quarterly =>
        if current_date.quarter ≠ last.quarter then (true, some current_date)
        else (false, some last)
      | Frequency.annually =>
        if current_date.year ≠ last.year then (true, some current_date)
        else (false, some last)
      | Frequency.buyAndHold => (false, some last)

/-- The calendar period a frequency compares: the month number for monthly,
the quarter number for quarterly, the year for annually. -/
def Frequency.period : Frequency → Date → Nat
  | Frequency.monthly, d => d.month
  | Frequency.quarterly, d => d.quarter
  | Frequency.annually, d => d.year
  | Frequency.buyAndHold, _ => 0

/-- Round-half-to-even to the nearest integer, the rounding mode of the
Python builtin `round`. -/
def roundHalfEven (x : ℚ) : ℤ :=
  let f := ⌊x⌋
  let r := x - f
  if r < 1 / 2 then f
  else if 1 / 2 < r then f + 1
  else if f % 2 = 0 then f else f + 1

/-- Embedding of `round(x, 5)` on a rational. -/
def pyRound5 (x : ℚ) : ℚ := (roundHalfEven (x * 100000) : ℚ) / 100000

/-- Errors raised by `Portfolio.__init__`: `typeError` for a non-dict or
non-string keys (unrepresentable in this typed embedding), `valueError` for
weights not summing to 1.0. -/
inductive PortfolioError where
  | typeError
  | valueError
deriving DecidableEq, Repr

/-- A validated portfolio: the fields of the Python `Portfolio` object
(the mutable `_last_rebalance_date` state is passed explicitly to
`should_rebalance` instead). Weights are kept as the list of dict items. -/
structure Portfolio where
  target_weights : List (String × ℚ)
  rebalance_frequency : Frequency
deriving DecidableEq, Repr

/-- Sum of the values of a weight mapping, `sum(target_weights.values())`. -/
def weightsSum (w : List (String × ℚ)) : ℚ := (w.map Prod.snd).sum

/-- Embedding of `Portfolio.__init__` (src/backtest/portfolio.py, lines
17-25). The `isinstance` guard always passes here because the embedding
types weights as string-keyed; the sum check is
`round(sum(target_weights.values()), 5) != 1.0`. -/
def Portfolio.init (target_weights : List (String × ℚ)) (freq : Frequency) :
    Except PortfolioError Portfolio :=
  if pyRound5 (weightsSum target_weights) ≠ 1 then
    Except.error PortfolioError.valueError
  else
    Except.ok ⟨target_weights, freq⟩

/-- Dot product of a holdings vector with a price row,
`sum(holdings[ticker] * prices[ticker] for ticker in holdings)`. Assets are
indexed by position: the engine initialises holdings from the columns of the
price table, and (as in the application) the allocation covers exactly those
columns. -/
def dot (holdings prices : List ℚ) : ℚ := (List.zipWith (· * ·) holdings prices).sum

/-- The cash-deployment block of `run_backtest` (src/backtest/engine.py,
lines 51-62): compute the total value of holdings plus cash, zero the cash,
and for every asset whose price is strictly positive set its holding to
(total value × target weight) / price; an asset with a non-positive price
keeps its previous holding. Returns the new holdings and the new cash. -/
def deploy_cash (target_weights prices holdings : List ℚ) (cash : ℚ) :
    List ℚ × ℚ :=
  let market_value := dot holdings prices
  let total_value := market_value + cash
  (List.zipWith (fun wp h => if 0 < wp.2 then total_value * wp.1 / wp.2 else h)
    (target_weights.zip prices) holdings, 0)

/-- The loop state of `run_backtest`: holdings, cash, the current monthly
top-up, the `last_month` / `last_year` trackers, the rebalance-policy state
(the `_last_rebalance_date` of the `Portfolio` object), and the accumulated
`portfolio_history`. -/
structure EngineState where
  holdings : List ℚ
  cash : ℚ
  current_monthly_topup : ℚ
  last_month : Option Nat
  last_year : Option Nat
  policy_state : Option Date
  history : List (Date × ℚ)
deriving DecidableEq, Repr

/-- The yearly escalation of the monthly top-up (src/backtest/engine.py,
lines 36-37): multiply by `(1 + annual_increase / 100)` when a year rollover
is detected against the `last_year` tracker. -/
def escalate_topup (annual_increase : ℚ) (last_year : Option Nat)
    (current_year : Nat) (topup : ℚ) : ℚ :=
  match last_year with
  | some y =>
    if y < current_year then topup * (1 + annual_increase / 100) else topup
  | none => topup

/-- The monthly cash injection (src/backtest/engine.py, lines 40-41): add the
current top-up to cash when a month rollover is detected against the
`last_month` tracker. -/
def inject_topup (last_month : Option Nat) (current_month : Nat)
    (topup cash : ℚ) : ℚ :=
  match last_month with
  | some m => if current_month ≠ m then cash + topup else cash
  | none => cash

/-- One iteration of the main simulation loop of `run_backtest`
(src/backtest/engine.py, lines 33-67) on a single (date, price row) pair:
annual top-up escalation, monthly cash injection, the rebalance /
first-day deployment decision, deployment, and recording the value of
the day. -/
def step_day (target_weights : List ℚ) (freq : Frequency) (annual_increase : ℚ)
    (s : EngineState) (row : Date × List ℚ) : EngineState :=
  let current_date := row.1
  let prices := row.2
  let topup :=
    escalate_topup annual_increase s.last_year current_date.year
      s.current_monthly_topup
  let cash := inject_topup s.last_month current_date.month topup s.cash
  -- rebalance or initial-investment check
  let is_first_day := s.history.isEmpty
  let rebalance := should_rebalance freq s.policy_state current_date
  let is_rebalance_day := rebalance.1
  let deployed :=
    if is_first_day || is_rebalance_day then
      deploy_cash target_weights prices s.holdings cash
    else (s.holdings, cash)
  -- portfolio value for the day
  let total_portfolio_value := dot deployed.1 prices + deployed.2
  { holdings := deployed.1
    cash := deployed.2
    current_monthly_topup := topup
    last_month := some current_date.month
    last_year := some current_date.year
    policy_state := rebalance.2
    history := s.history ++ [(current_date, total_portfolio_value)] }

/-- The initial loop state of `run_backtest` (lines 24-30): zero holdings for
each of the `n` price-table columns, all cash, the configured monthly top-up,
and no month/year/rebalance history. -/
def initState (n : Nat) (initial_investment monthly_topup : ℚ) : EngineState :=
  { holdings := List.replicate n 0
    cash := initial_investment
    current_monthly_topup := monthly_topup
    last_month := none
    last_year := none
    policy_state := none
    history := [] }

/-- Embedding of `run_backtest` (src/backtest/engine.py): fold the daily step
over the price-table rows and return the value history, the final holdings
and the final cash. The `Portfolio` argument is split into its target
weights (positionally aligned with the price columns) and its frequency. -/
def run_backtest (rows : List (Date × List ℚ)) (target_weights : List ℚ)
    (freq : Frequency) (initial_investment monthly_topup annual_increase : ℚ) :
    List (Date × ℚ) × List ℚ × ℚ :=
  let final := rows.foldl (step_day target_weights freq annual_increase)
    (initState target_weights.length initial_investment monthly_topup)
  (final.history, final.holdings, final.cash)

/-- Count of calendar-month rollovers the engine detects along a date list,
starting from a given previous month: each consecutive date whose month
differs from the month of the date before it counts one. -/
def monthRollovers : Nat → List Date → Nat
  | _, [] => 0
  | m, d :: ds => (if d.month ≠ m then 1 else 0) + monthRollovers d.month ds

/-- NaN-propagating addition on the float model: `none` models float NaN. -/
def oAdd : Option ℚ → Option ℚ → Option ℚ
  | some a, some b => some (a + b)
  | _, _ => none

/-- NaN-propagating multiplication on the float model. -/
def oMul : Option ℚ → Option ℚ → Option ℚ
  | some a, some b => some (a * b)
  | _, _ => none

/-- Embedding of `historical_returns.mean()`: the pandas mean of an empty
series is NaN, otherwise the arithmetic mean. -/
def sampleMean (xs : List ℚ) : Option ℚ :=
  if xs.isEmpty then none else some (xs.sum / xs.length)

/-- Sample variance with one delta degree of freedom, the square of
`historical_returns.std()` (pandas default ddof=1): NaN for fewer than 2
observations. -/
def sampleVariance (xs : List ℚ) : Option ℚ :=
  if xs.length < 2 then none
  else some (((xs.map (fun x => (x - xs.sum / xs.length) ^ 2)).sum) /
    ((xs.length : ℚ) - 1))

/-- The relation tying the `sigma` argument of the simulation to
`historical_returns.std()`: since the square root of a rational is in
general irrational, the standard deviation is passed as an explicit
parameter constrained to be the non-negative square root of the sample
variance (and NaN exactly when the variance is NaN). -/
def IsStd (xs : List ℚ) (sigma : Option ℚ) : Prop :=
  match sampleVariance xs with
  | none => sigma = none
  | some v => ∃ s : ℚ, sigma = some s ∧ 0 ≤ s ∧ s * s = v

/-- The price of one simulated path after `n` daily shocks
(src/backtest/forecasting.py, lines 28-36): starting from the initial value,
each day multiplies by `(1 + shock)` where the shock is the normal draw
`mu + sigma * z` for a standard-normal `z` supplied by the random source.
NaN statistics make every simulated price NaN, as in the code. -/
def pathPrice (mu sigma : Option ℚ) (z : Nat → ℚ) (initial_value : ℚ) :
    Nat → Option ℚ
  | 0 => some initial_value
  | n + 1 =>
    oMul (pathPrice mu sigma z initial_value n)
      (oAdd (some 1) (oAdd mu (oMul sigma (some (z n)))))

/-- Insertion into a sorted list of rationals. -/
def insertSorted (x : ℚ) : List ℚ → List ℚ
  | [] => [x]
  | y :: ys => if x ≤ y then x :: y :: ys else y :: insertSorted x ys

/-- Sorting a list of rationals ascending. -/
def sortRat (xs : List ℚ) : List ℚ := xs.foldr insertSorted []

/-- Embedding of `DataFrame.quantile(q, axis=1)` on one row of cells:
NaN cells are skipped, the remaining values are sorted, and the quantile is
linearly interpolated at position `q * (count - 1)`; a row with no non-NaN
value has a NaN quantile. -/
def quantileLinear (q : ℚ) (cells : List (Option ℚ)) : Option ℚ :=
  let vals := sortRat (cells.filterMap id)
  if vals.isEmpty then none
  else
    let pos : ℚ := q * ((vals.length : ℚ) - 1)
    let lo : Nat := (⌊pos⌋).toNat
    let frac : ℚ := pos - lo
    let a := vals.getD lo 0
    let b := vals.getD (lo + 1) a
    some (a + frac * (b - a))

/-- One output row of the forecast distribution: the five quantile columns
of `run_monte_carlo_simulation`. -/
structure ForecastRow where
  median : Option ℚ
  upper_bound_75 : Option ℚ
  lower_bound_25 : Option ℚ
  upper_bound_95 : Option ℚ
  lower_bound_05 : Option ℚ
deriving DecidableEq, Repr

/-- The failure modes of the simulation: `indexError` models the Python
`IndexError` that `historical_returns.index[-1]` raises on an empty series;
`insufficientDataError` is the explicit error the specification prescribes
for empty input, which the code never raises. -/
inductive MCError where
  | indexError
  | insufficientDataError
deriving DecidableEq, Repr

/-- Embedding of `run_monte_carlo_simulation` (src/backtest/forecasting.py).
The randomness is an explicit source `z` of standard-normal draws indexed by
(path, day); `sigma` is the standard deviation of the historical returns,
passed explicitly (see `IsStd`). The statistics of an empty series are NaN
and raise nothing, the simulated paths raise nothing, and the construction
of the future date index fails with an `IndexError` on an empty input series
when it reads the last historical date; otherwise the result has one row of
five interpolated quantiles per projected trading day. -/
def run_monte_carlo_simulation (z : Nat → Nat → ℚ) (historical_returns : List ℚ)
    (sigma : Option ℚ) (projection_years : Nat) (initial_value : ℚ)
    (num_simulations : Nat) : Except MCError (List ForecastRow) :=
  let mu := sampleMean historical_returns
  let num_days := projection_years * 252
  if historical_returns.isEmpty then Except.error MCError.indexError
  else
    Except.ok ((List.range num_days).map (fun j =>
      let day_cells := (List.range num_simulations).map
        (fun i => pathPrice mu sigma (z i) initial_value (j + 1))
      { median := quantileLinear (1 / 2) day_cells
        upper_bound_75 := quantileLinear (3 / 4) day_cells
        lower_bound_25 := quantileLinear (1 / 4) day_cells
        upper_bound_95 := quantileLinear (19 / 20) day_cells
        lower_bound_05 := quantileLinear (1 / 20) day_cells }))

/-- One row of `np.log(price_data / price_data.shift(1))`: the elementwise
log of the ratio of the current price row to the previous one. The logarithm
of a float is irrational in general, so it is abstracted as a parameter
`log : ℚ → Option ℚ`, with `none` modelling a NaN result (numpy log of a
negative ratio). -/
def logReturnRow (log : ℚ → Option ℚ) (prev cur : List ℚ) :
    List (Option ℚ) :=
  List.zipWith (fun pp cp => log (cp / pp)) prev cur

/-- The log-return table before `dropna`: one row per consecutive pair of
price rows (the first row of the pandas division is all-NaN from the shift
and is dropped by `dropna`, so it is not generated here). -/
def logReturnRows (log : ℚ → Option ℚ) (rows : List (List ℚ)) :
    List (List (Option ℚ)) :=
  (rows.zip rows.tail).map (fun pr => logReturnRow log pr.1 pr.2)

/-- Embedding of `DataFrame.dropna()` on the log-return table: keep exactly
the rows with no NaN cell, extracting their values. -/
def dropna (rows : List (List (Option ℚ))) : List (List ℚ) :=
  rows.filterMap (fun r =>
    if r.all Option.isSome then some (r.filterMap id) else none)

/-- Embedding of `generate_risk_report` (src/backtest/risk.py): the two
insufficient-data guards (`price_data.shape[0] < 2 or price_data.shape[1] < 1`
at line 17 and `len(log_returns) < 2` at line 27) return `(None, None)`;
past the guards the function returns its metrics dict and correlation
figure. The metrics computation (annualised covariance, portfolio
volatility, eigen decomposition) and the heatmap figure are downstream of
the guards and produce irrational-valued floats and a matplotlib object, so
they are abstracted: the metrics as a caller-supplied function of the
surviving log returns and the weights, the figure as `Unit`. The claims
under verification only inspect the guard behaviour. -/
def generate_risk_report {M : Type} (log : ℚ → Option ℚ)
    (compute_metrics : List (List ℚ) → List ℚ → M)
    (ncols : Nat) (rows : List (List ℚ)) (weights : List ℚ) :
    Option M × Option Unit :=
  if rows.length < 2 ∨ ncols < 1 then (none, none)
  else
    let log_returns := dropna (logReturnRows log rows)
    if log_returns.length < 2 then (none, none)
    else (some (compute_metrics log_returns weights), some ())

end Backtest

namespace Backtest

/-- C1: for a rebalance policy with a non-None frequency, any invocation made
after the first one (so with a stored last-rebalance date) returns true iff
the calendar period of the current date (month, quarter or year, per the
frequency) differs from the period of the stored date, and on returning true
the stored date is updated to the current date. Since the result depends only
on the stored date and the current date, this characterises every invocation
after the first in any call sequence. -/
theorem should_rebalance_subsequent_iff_period_change
    (freq : Frequency) (last current : Date)
    (hfreq : freq ≠ Frequency.buyAndHold) :
    ((should_rebalance freq (some last) current).1 = true ↔
      freq.period current ≠ freq.period last) ∧
    ((should_rebalance freq (some last) current).1 = true →
      (should_rebalance freq (some last) current).2 = some current) := by
  cases freq with
  | buyAndHold => exact absurd rfl hfreq
  | monthly =>
    by_cases h : current.month = last.month <;>
      simp [should_rebalance, Frequency.period, h]
  | quarterly =>
    by_cases h : current.quarter = last.quarter <;>
      simp [should_rebalance, Frequency.period, h]
  | annually =>
    by_cases h : current.year = last.year <;>
      simp [should_rebalance, Frequency.period, h]

/-- Witness for C1: with monthly frequency, stored date Jan-20 and current
date Feb-3 (of the same year), the call returns true and stores Feb-3. -/
theorem should_rebalance_subsequent_iff_period_change_witness :
    ((should_rebalance Frequency.monthly (some ⟨2024, 1, 20⟩) ⟨2024, 2, 3⟩).1 = true ↔
      Frequency.monthly.period ⟨2024, 2, 3⟩ ≠ Frequency.monthly.period ⟨2024, 1, 20⟩) ∧
    ((should_rebalance Frequency.monthly (some ⟨2024, 1, 20⟩) ⟨2024, 2, 3⟩).1 = true →
      (should_rebalance Frequency.monthly (some ⟨2024, 1, 20⟩) ⟨2024, 2, 3⟩).2 =
        some ⟨2024, 2, 3⟩) :=
  should_rebalance_subsequent_iff_period_change Frequency.monthly
    ⟨2024, 1, 20⟩ ⟨2024, 2, 3⟩ (by decide)

/-- C10: with frequency None (buy-and-hold), `should_rebalance` returns false
and leaves the stored last-rebalance state exactly as it was, whatever that
state is: in particular the first call does not record the current date. -/
theorem should_rebalance_buy_and_hold_frame
    (state : Option Date) (current : Date) :
    should_rebalance Frequency.buyAndHold state current = (false, state) := rfl

/-- Any rounding the code performs is within a half of the true value. -/
theorem roundHalfEven_abs_le (x : ℚ) : |x - roundHalfEven x| ≤ 1 / 2 := by
  simp only [roundHalfEven]
  have h0 : (⌊x⌋ : ℚ) ≤ x := Int.floor_le x
  have h1 : x < ⌊x⌋ + 1 := Int.lt_floor_add_one x
  split_ifs with hlt hgt hev
  · rw [abs_of_nonneg (by linarith)]; linarith
  · push_cast
    rw [abs_of_nonpos (by linarith)]
    linarith
  · rw [abs_of_nonneg (by linarith)]; linarith
  · push_cast
    rw [abs_of_nonpos (by linarith)]
    have : ¬ x - ⌊x⌋ < 1 / 2 := hlt
    linarith [not_lt.mp hlt, not_lt.mp hgt]

/-- C7: constructing a `Portfolio` succeeds only when the target weights sum
to 1.0 within tolerance 1e-5 (the check `round(sum, 5) != 1.0` in fact
enforces the tighter half-ulp bound 5e-6, which implies the claimed 1e-5
tolerance), and construction raises a `ValueError` for every weight mapping
summing to 0.95 or to 1.05. -/
theorem portfolio_init_weight_sum_tolerance (w : List (String × ℚ)) :
    (∀ freq p, Portfolio.init w freq = Except.ok p →
      |weightsSum w - 1| ≤ 1 / 100000) ∧
    ((weightsSum w = 19 / 20 ∨ weightsSum w = 21 / 20) →
      ∀ freq, Portfolio.init w freq = Except.error PortfolioError.valueError) := by
  constructor
  · intro freq p hok
    have hround : pyRound5 (weightsSum w) = 1 := by
      by_contra hne
      simp only [Portfolio.init, if_pos hne] at hok
      exact Except.noConfusion hok
    have hcast : (roundHalfEven (weightsSum w * 100000) : ℚ) = 100000 := by
      have := hround
      unfold pyRound5 at this
      field_simp at this
      exact_mod_cast this
    have habs := roundHalfEven_abs_le (weightsSum w * 100000)
    rw [hcast] at habs
    have hfactor : weightsSum w * 100000 - 100000 = (weightsSum w - 1) * 100000 := by
      ring
    rw [hfactor, abs_mul, abs_of_nonneg (by norm_num : (0:ℚ) ≤ 100000)] at habs
    linarith
  · intro hsum freq
    have hne : pyRound5 (weightsSum w) ≠ 1 := by
      rcases hsum with h | h <;> rw [h] <;> norm_num [pyRound5, roundHalfEven]
    simp [Portfolio.init, hne]

/-- Unfolding of the dot product on matching cons cells. -/
theorem dot_cons (a b : ℚ) (as bs : List ℚ) :
    dot (a :: as) (b :: bs) = a * b + dot as bs := by
  simp [dot]

/-- Valuing the redeployed holdings at all-positive prices gives the deployed
total times the weight sum. -/
theorem dot_deploy_holdings (w : List ℚ) :
    ∀ (p h : List ℚ) (T : ℚ), w.length = p.length → p.length = h.length →
      (∀ x ∈ p, 0 < x) →
      dot (List.zipWith (fun wp hh => if 0 < wp.2 then T * wp.1 / wp.2 else hh)
        (w.zip p) h) p = T * w.sum := by
  induction w with
  | nil => intro p h T _ _ _; simp [dot]
  | cons a as ih =>
    intro p h T hwp hph hpos
    cases p with
    | nil => simp at hwp
    | cons b bs =>
      cases h with
      | nil => simp at hph
      | cons c cs =>
        have hb : 0 < b := hpos b (List.mem_cons_self b bs)
        simp only [List.zip_cons_cons, List.zipWith_cons_cons, if_pos hb, dot_cons]
        rw [ih bs cs T (by simpa using hwp) (by simpa using hph)
          (fun x hx => hpos x (List.mem_cons_of_mem b hx))]
        field_simp
        ring

/-- C3: the deployment block of the engine conserves total portfolio value:
whenever every price of the day is strictly positive and the target weights
sum to 1, the value of the holdings at the prices of the day plus cash
immediately after the deployment equals the value immediately before it.
This covers every engine state reaching a first-day or rebalance deployment
with such prices and weights. -/
theorem deploy_cash_value_conservation (w p h : List ℚ) (c : ℚ)
    (hwp : w.length = p.length) (hph : p.length = h.length)
    (hpos : ∀ x ∈ p, 0 < x) (hsum : w.sum = 1) :
    dot (deploy_cash w p h c).1 p + (deploy_cash w p h c).2 = dot h p + c := by
  unfold deploy_cash
  simp only []
  rw [dot_deploy_holdings w p h (dot h p + c) hwp hph hpos, hsum, mul_one,
    add_zero]

/-- Witness for C3: one asset at weight 1, price 10, holdings 3 units and
cash 1000 — the deployment leaves the total value (1030) unchanged. -/
theorem deploy_cash_value_conservation_witness :
    dot (deploy_cash [1] [10] [3] 1000).1 [10] +
      (deploy_cash [1] [10] [3] 1000).2 = dot [3] [10] + 1000 :=
  deploy_cash_value_conservation [1] [10] [3] 1000 rfl rfl
    (by intro x hx; simp at hx; rw [hx]; norm_num) (by norm_num)

/-- The history of the engine fold extends the starting history with exactly
one entry per processed row, carrying the dates of the rows in order. -/
theorem foldl_step_day_history_fst (w : List ℚ) (f : Frequency) (ai : ℚ) :
    ∀ (rows : List (Date × List ℚ)) (s : EngineState),
      ((rows.foldl (step_day w f ai) s).history).map Prod.fst =
        s.history.map Prod.fst ++ rows.map Prod.fst := by
  intro rows
  induction rows with
  | nil => intro s; simp
  | cons r rs ih =>
    intro s
    rw [List.foldl_cons, ih]
    simp [step_day]

/-- C4: for a non-empty price table, the value series returned by
`run_backtest` has exactly one entry per input row carrying the same dates in
the same order, and the returned holdings and cash are the holdings and cash
of the loop state after folding the daily step over every row (the state
after the last row). -/
theorem run_backtest_series_shape (rows : List (Date × List ℚ))
    (w : List ℚ) (f : Frequency) (ii mt ai : ℚ) (hne : rows ≠ []) :
    (run_backtest rows w f ii mt ai).1.map Prod.fst = rows.map Prod.fst ∧
    (run_backtest rows w f ii mt ai).2 =
      ((rows.foldl (step_day w f ai) (initState w.length ii mt)).holdings,
       (rows.foldl (step_day w f ai) (initState w.length ii mt)).cash) := by
  refine ⟨?_, rfl⟩
  unfold run_backtest
  simpa using foldl_step_day_history_fst w f ai rows (initState w.length ii mt)

/-- Witness for C4: a two-row price table for one asset yields a value series
over exactly those two dates, and the final state of the fold. -/
theorem run_backtest_series_shape_witness :
    (run_backtest [(⟨2024, 1, 2⟩, [10]), (⟨2024, 1, 3⟩, [10])] [1]
        Frequency.monthly 1000 0 0).1.map Prod.fst =
      [(⟨2024, 1, 2⟩, [(10 : ℚ)]), (⟨2024, 1, 3⟩, [10])].map Prod.fst ∧
    (run_backtest [(⟨2024, 1, 2⟩, [10]), (⟨2024, 1, 3⟩, [10])] [1]
        Frequency.monthly 1000 0 0).2 =
      (([(⟨2024, 1, 2⟩, [(10 : ℚ)]), (⟨2024, 1, 3⟩, [10])].foldl
          (step_day [1] Frequency.monthly 0) (initState [(1 : ℚ)].length 1000 0)).holdings,
       ([(⟨2024, 1, 2⟩, [(10 : ℚ)]), (⟨2024, 1, 3⟩, [10])].foldl
          (step_day [1] Frequency.monthly 0) (initState [(1 : ℚ)].length 1000 0)).cash) :=
  run_backtest_series_shape [(⟨2024, 1, 2⟩, [10]), (⟨2024, 1, 3⟩, [10])] [1]
    Frequency.monthly 1000 0 0 (by simp)

/-- The holdings of the all-zero initial portfolio are worth nothing at any
prices. -/
theorem dot_replicate_zero (n : Nat) (p : List ℚ) :
    dot (List.replicate n 0) p = 0 := by
  induction n generalizing p with
  | zero => simp [dot]
  | succ k ih =>
    cases p with
    | nil => simp [dot]
    | cons b bs => rw [List.replicate_succ, dot_cons, ih bs]; ring

/-- Deployment keeps the length of the holdings vector when weights, prices
and holdings are aligned. -/
theorem deploy_cash_holdings_length (w p h : List ℚ) (c : ℚ)
    (hwp : w.length = p.length) (hph : p.length = h.length) :
    ((deploy_cash w p h c).1).length = h.length := by
  simp [deploy_cash]
  omega

/-- With annual increase 0 the top-up escalation is the identity. -/
theorem escalate_topup_zero (last_year : Option Nat) (cy : Nat) (t : ℚ) :
    escalate_topup 0 last_year cy t = t := by
  cases last_year with
  | none => rfl
  | some y =>
    simp only [escalate_topup]
    split_ifs with hy
    · norm_num
    · rfl

/-- On the first day there is no month tracker, so no cash is injected. -/
theorem inject_topup_start (mo : Nat) (t c : ℚ) :
    inject_topup none mo t c = c := rfl

/-- After the first day the injection adds the top-up exactly on a month
change. -/
theorem inject_topup_some (m mo : Nat) (t c : ℚ) :
    inject_topup (some m) mo t c = c + (if mo ≠ m then t else 0) := by
  simp only [inject_topup]
  split_ifs <;> ring

/-- One engine step on a constant-price day with annual increase 0: the total
value grows by the top-up exactly when the month rolled over, the top-up
amount is unchanged, and the month tracker, history and holdings shape evolve
as expected. -/
theorem step_day_const_price_value (w p : List ℚ) (f : Frequency)
    (s : EngineState) (d : Date) (m : Nat)
    (hwp : w.length = p.length) (hpos : ∀ x ∈ p, 0 < x) (hsum : w.sum = 1)
    (hm : s.last_month = some m)
    (hh : s.history ≠ []) (hlen : s.holdings.length = p.length) :
    dot (step_day w f 0 s (d, p)).holdings p + (step_day w f 0 s (d, p)).cash =
      dot s.holdings p + s.cash +
        (if d.month ≠ m then s.current_monthly_topup else 0) ∧
    (step_day w f 0 s (d, p)).current_monthly_topup = s.current_monthly_topup ∧
    (step_day w f 0 s (d, p)).last_month = some d.month ∧
    (step_day w f 0 s (d, p)).history ≠ [] ∧
    (step_day w f 0 s (d, p)).holdings.length = p.length := by
  have hemp : s.history.isEmpty = false := by
    cases hhist : s.history with
    | nil => exact absurd hhist hh
    | cons e es => rfl
  simp only [step_day, escalate_topup_zero, hm, inject_topup_some, hemp,
    Bool.false_or]
  cases hr : (should_rebalance f s.policy_state d).1 with
  | false =>
    simp only [Bool.false_eq_true, if_false]
    exact ⟨by ring, by trivial, by trivial, by simp, hlen⟩
  | true =>
    simp only [if_true]
    refine ⟨?_, by trivial, by trivial, by simp, ?_⟩
    · rw [deploy_cash_value_conservation w p s.holdings _ hwp hlen.symm hpos
        hsum]
      ring
    · rw [deploy_cash_holdings_length w p s.holdings _ hwp hlen.symm, hlen]

/-- Folding the engine step over a run of constant-price days with annual
increase 0 adds the (constant) monthly top-up to the total value once per
detected month rollover. -/
theorem foldl_step_day_const_price_value (w p : List ℚ) (f : Frequency)
    (hwp : w.length = p.length) (hpos : ∀ x ∈ p, 0 < x) (hsum : w.sum = 1) :
    ∀ (ds : List Date) (s : EngineState) (m : Nat) (t : ℚ),
      s.last_month = some m → s.current_monthly_topup = t →
      s.history ≠ [] → s.holdings.length = p.length →
      dot ((ds.map (fun d => (d, p))).foldl (step_day w f 0) s).holdings p +
          ((ds.map (fun d => (d, p))).foldl (step_day w f 0) s).cash =
        dot s.holdings p + s.cash + t * monthRollovers m ds := by
  intro ds
  induction ds with
  | nil => intro s m t _ _ _ _; simp [monthRollovers]
  | cons d rest ih =>
    intro s m t hm ht hh hlen
    obtain ⟨hval, htop, hmon, hhist, hlen'⟩ :=
      step_day_const_price_value w p f s d m hwp hpos hsum hm hh hlen
    rw [ht] at hval htop
    simp only [List.map_cons, List.foldl_cons]
    rw [ih (step_day w f 0 s (d, p)) d.month t hmon htop hhist hlen', hval,
      monthRollovers]
    push_cast
    split_ifs <;> ring

/-- The first engine day deploys the whole initial investment: at strictly
positive constant prices and weights summing to 1, the value after day one is
exactly the initial investment, no top-up is injected, and the trackers are
initialised. -/
theorem step_day_first_day_const_price (w p : List ℚ) (f : Frequency)
    (d : Date) (init t : ℚ)
    (hwp : w.length = p.length) (hpos : ∀ x ∈ p, 0 < x) (hsum : w.sum = 1) :
    dot (step_day w f 0 (initState w.length init t) (d, p)).holdings p +
        (step_day w f 0 (initState w.length init t) (d, p)).cash = init ∧
    (step_day w f 0 (initState w.length init t) (d, p)).current_monthly_topup = t ∧
    (step_day w f 0 (initState w.length init t) (d, p)).last_month = some d.month ∧
    (step_day w f 0 (initState w.length init t) (d, p)).history ≠ [] ∧
    (step_day w f 0 (initState w.length init t) (d, p)).holdings.length = p.length := by
  have hrep : (List.replicate w.length (0 : ℚ)).length = p.length := by
    simp [hwp]
  simp only [step_day, initState, List.isEmpty_nil, Bool.true_or, if_true,
    escalate_topup_zero, inject_topup_start]
  refine ⟨?_, by trivial, by trivial, by simp, ?_⟩
  · rw [deploy_cash_value_conservation w p (List.replicate w.length 0) init hwp
      hrep.symm hpos hsum, dot_replicate_zero]
    ring
  · rw [deploy_cash_holdings_length w p (List.replicate w.length 0) init hwp
      hrep.symm, hrep]

/-- C8: running the engine with monthly top-up 100, annual increase 0 and a
constant, strictly positive price row over a nonempty date range on which the
engine detects exactly 3 calendar-month rollovers produces, for target
weights summing to 1, a final total portfolio value (final holdings valued at
the constant prices, plus final cash) of exactly the initial investment plus
300. -/
theorem run_backtest_topup_three_rollovers (w p : List ℚ) (d0 : Date)
    (ds : List Date) (f : Frequency) (init : ℚ)
    (hwp : w.length = p.length) (hpos : ∀ x ∈ p, 0 < x) (hsum : w.sum = 1)
    (hroll : monthRollovers d0.month ds = 3) :
    dot (run_backtest ((d0 :: ds).map (fun d => (d, p))) w f init 100 0).2.1 p +
      (run_backtest ((d0 :: ds).map (fun d => (d, p))) w f init 100 0).2.2 =
      init + 300 := by
  unfold run_backtest
  simp only [List.map_cons, List.foldl_cons]
  obtain ⟨hval, htop, hmon, hhist, hlen'⟩ :=
    step_day_first_day_const_price w p f d0 init 100 hwp hpos hsum
  rw [foldl_step_day_const_price_value w p f hwp hpos hsum ds _ d0.month 100
    hmon htop hhist hlen', hval, hroll]
  norm_num

/-- Witness for C8: one asset at weight 1 and constant price 10, initial
investment 1000, started Jan-15 with one day in each of February, March and
April — the final value is exactly 1300. -/
theorem run_backtest_topup_three_rollovers_witness :
    dot (run_backtest (((⟨2024, 1, 15⟩ : Date) ::
        [⟨2024, 2, 1⟩, ⟨2024, 3, 1⟩, ⟨2024, 4, 1⟩]).map (fun d => (d, [10])))
        [1] Frequency.buyAndHold 1000 100 0).2.1 [10] +
      (run_backtest (((⟨2024, 1, 15⟩ : Date) ::
        [⟨2024, 2, 1⟩, ⟨2024, 3, 1⟩, ⟨2024, 4, 1⟩]).map (fun d => (d, [10])))
        [1] Frequency.buyAndHold 1000 100 0).2.2 = 1000 + 300 :=
  run_backtest_topup_three_rollovers [1] [10] ⟨2024, 1, 15⟩
    [⟨2024, 2, 1⟩, ⟨2024, 3, 1⟩, ⟨2024, 4, 1⟩] Frequency.buyAndHold 1000
    rfl (by intro x hx; simp at hx; rw [hx]; norm_num) (by norm_num)
    (by decide)

/-- Witness for C7: the singleton weight mapping with weight 0.95 is rejected
with a `ValueError`. -/
theorem portfolio_init_weight_sum_tolerance_witness :
    Portfolio.init [("AAPL", 19 / 20)] Frequency.monthly =
      Except.error PortfolioError.valueError :=
  (portfolio_init_weight_sum_tolerance [("AAPL", 19 / 20)]).2
    (Or.inl (by norm_num [weightsSum])) Frequency.monthly

/-- A nonempty list is not `isEmpty`. -/
theorem isEmpty_false_of_ne_nil {α : Type} (l : List α) (h : l ≠ []) :
    l.isEmpty = false := by
  cases l with
  | nil => exact absurd rfl h
  | cons a as => rfl

/-- C2 (amended): on the empty historical return series the simulation fails,
but with the `IndexError` raised by reading the last historical date from the
empty index, not with an `InsufficientDataError`; the NaN statistics of the
empty series raise nothing before that point. -/
theorem monte_carlo_empty_raises_index_error (z : Nat → Nat → ℚ)
    (sigma : Option ℚ) (y : Nat) (v : ℚ) (n : Nat) :
    run_monte_carlo_simulation z [] sigma y v n =
      Except.error MCError.indexError := rfl

/-- Counterexample for C2: at the concrete empty input the operation fails
with `IndexError`, which is not the `InsufficientDataError` the claim
prescribes (the code never raises an `InsufficientDataError`). -/
theorem monte_carlo_empty_not_insufficient_data :
    IsStd [] none ∧
    run_monte_carlo_simulation (fun _ _ => 0) [] none 1 100 500 =
      Except.error MCError.indexError ∧
    MCError.indexError ≠ MCError.insufficientDataError :=
  ⟨rfl, rfl, by decide⟩

/-- C9: for every non-empty historical return series (and any standard
deviation parameter, projection length, starting value and path count) the
forecast distribution has exactly `projection_years * 252` rows. -/
theorem monte_carlo_row_count (z : Nat → Nat → ℚ) (xs : List ℚ)
    (sigma : Option ℚ) (y : Nat) (v : ℚ) (n : Nat) (hne : xs ≠ []) :
    ∃ rows, run_monte_carlo_simulation z xs sigma y v n = Except.ok rows ∧
      rows.length = y * 252 := by
  unfold run_monte_carlo_simulation
  rw [isEmpty_false_of_ne_nil xs hne]
  exact ⟨_, rfl, by simp⟩

/-- Witness for C9: one zero return, one year, one path — 252 rows. -/
theorem monte_carlo_row_count_witness :
    ∃ rows, run_monte_carlo_simulation (fun _ _ => 0) [0] none 1 100 1 =
      Except.ok rows ∧ rows.length = 1 * 252 :=
  monte_carlo_row_count (fun _ _ => 0) [0] none 1 100 1 (by simp)

/-- Membership is preserved by sorted insertion. -/
theorem mem_insertSorted (x y : ℚ) (l : List ℚ) :
    y ∈ insertSorted x l ↔ y = x ∨ y ∈ l := by
  induction l with
  | nil => simp [insertSorted]
  | cons a as ih =>
    simp only [insertSorted]
    split_ifs
    · simp [List.mem_cons]
    · simp only [List.mem_cons, ih]
      tauto

/-- Membership is preserved by sorting. -/
theorem mem_sortRat (y : ℚ) (xs : List ℚ) : y ∈ sortRat xs ↔ y ∈ xs := by
  induction xs with
  | nil => simp [sortRat]
  | cons a as ih =>
    show y ∈ insertSorted a (sortRat as) ↔ _
    rw [mem_insertSorted, ih]
    simp [List.mem_cons]

/-- Sorted insertion adds one element. -/
theorem length_insertSorted (x : ℚ) (l : List ℚ) :
    (insertSorted x l).length = l.length + 1 := by
  induction l with
  | nil => rfl
  | cons a as ih =>
    simp only [insertSorted]
    split_ifs <;> simp [ih]

/-- Sorting preserves the length. -/
theorem length_sortRat (xs : List ℚ) : (sortRat xs).length = xs.length := by
  induction xs with
  | nil => rfl
  | cons a as ih =>
    show (insertSorted a (sortRat as)).length = _
    rw [length_insertSorted, ih]
    rfl

/-- Reading any position of a constant list, with a default equal to the
constant, gives the constant. -/
theorem getD_eq_of_forall (l : List ℚ) (c d : ℚ) (i : Nat)
    (hl : ∀ y ∈ l, y = c) (hd : d = c) : l.getD i d = c := by
  induction l generalizing i with
  | nil => simpa [List.getD]
  | cons a as ih =>
    cases i with
    | zero => exact hl a (List.mem_cons_self a as)
    | succ k =>
      exact ih k (fun y hy => hl y (List.mem_cons_of_mem a hy))

/-- The linearly interpolated quantile of a row whose cells all hold the same
non-NaN value is that value, for any quantile level in [0, 1]. -/
theorem quantileLinear_const (q c : ℚ) (cells : List (Option ℚ))
    (hcells : ∀ x ∈ cells, x = some c) (hne : cells ≠ [])
    (hq0 : 0 ≤ q) (hq1 : q ≤ 1) :
    quantileLinear q cells = some c := by
  have hvals : ∀ y ∈ sortRat (cells.filterMap id), y = c := by
    intro y hy
    rw [mem_sortRat] at hy
    rw [List.mem_filterMap] at hy
    obtain ⟨a, ha, hav⟩ := hy
    have := hcells a ha
    rw [this] at hav
    exact (Option.some_injective ℚ hav).symm
  have hlen : 0 < (sortRat (cells.filterMap id)).length := by
    rw [length_sortRat]
    cases cells with
    | nil => exact absurd rfl hne
    | cons a as =>
      have ha := hcells a (List.mem_cons_self a as)
      rw [ha]
      simp
  simp only [quantileLinear]
  rw [isEmpty_false_of_ne_nil _ (by intro h; rw [h] at hlen; simp at hlen)]
  simp only [Bool.false_eq_true, if_false]
  set vals := sortRat (cells.filterMap id) with hv
  set pos : ℚ := q * ((vals.length : ℚ) - 1) with hpos
  have hub : (⌊pos⌋).toNat < vals.length := by
    have h1 : (1 : ℚ) ≤ (vals.length : ℚ) := by exact_mod_cast hlen
    have hple : pos ≤ (vals.length : ℚ) - 1 := by
      rw [hpos]
      nlinarith
    have hfle : ⌊pos⌋ ≤ (vals.length : ℤ) - 1 := by
      have := Int.floor_le_floor hple
      rwa [show ((vals.length : ℚ) - 1) = (((vals.length : ℤ) - 1 : ℤ) : ℚ) by
        push_cast; ring, Int.floor_intCast] at this
    omega
  have ha : vals.getD (⌊pos⌋).toNat 0 = c := by
    rw [List.getD_eq_getElem vals 0 hub]
    exact hvals _ (List.getElem_mem hub)
  rw [ha, getD_eq_of_forall vals c c _ hvals rfl]
  congr 1
  ring

/-- The sample mean of a nonempty all-zero return series is exactly 0. -/
theorem sampleMean_all_zero (xs : List ℚ) (hne : xs ≠ [])
    (hz : ∀ x ∈ xs, x = 0) : sampleMean xs = some 0 := by
  unfold sampleMean
  rw [isEmpty_false_of_ne_nil xs hne]
  simp [List.sum_eq_zero hz]

/-- The sample variance of an all-zero return series with at least two
observations is exactly 0. -/
theorem sampleVariance_all_zero (xs : List ℚ) (h2 : 2 ≤ xs.length)
    (hz : ∀ x ∈ xs, x = 0) : sampleVariance xs = some 0 := by
  unfold sampleVariance
  rw [if_neg (by omega)]
  have hnum : (xs.map (fun x => (x - xs.sum / xs.length) ^ 2)).sum = 0 := by
    apply List.sum_eq_zero
    intro y hy
    rw [List.mem_map] at hy
    obtain ⟨x, hx, rfl⟩ := hy
    rw [hz x hx, List.sum_eq_zero hz]
    ring
  rw [hnum]
  simp

/-- With zero mean and zero standard deviation every simulated path is flat
at the starting value. -/
theorem pathPrice_zero_stats (z : Nat → ℚ) (v : ℚ) (n : Nat) :
    pathPrice (some 0) (some 0) z v n = some v := by
  induction n with
  | zero => rfl
  | succ k ih =>
    rw [pathPrice, ih]
    simp [oMul, oAdd]

/-- C5 (amended): for a historical return series of at least 2 observations,
all equal to 0, the sample mean and standard deviation are exactly 0, every
simulated path is flat at the starting value, and all five quantile columns
of every forecast row equal the starting value exactly, for any positive
projection length and any positive number of paths. -/
theorem monte_carlo_zero_returns_flat (z : Nat → Nat → ℚ) (xs : List ℚ)
    (sigma : Option ℚ) (y : Nat) (v : ℚ) (n : Nat)
    (h2 : 2 ≤ xs.length) (hz : ∀ x ∈ xs, x = 0) (hstd : IsStd xs sigma)
    (hy : 0 < y) (hn : 0 < n) :
    ∃ rows, run_monte_carlo_simulation z xs sigma y v n = Except.ok rows ∧
      rows ≠ [] ∧
      ∀ r ∈ rows, r.median = some v ∧ r.upper_bound_75 = some v ∧
        r.lower_bound_25 = some v ∧ r.upper_bound_95 = some v ∧
        r.lower_bound_05 = some v := by
  have hne : xs ≠ [] := by
    intro h
    rw [h] at h2
    simp at h2
  have hmu : sampleMean xs = some 0 := sampleMean_all_zero xs hne hz
  have hsig : sigma = some 0 := by
    unfold IsStd at hstd
    rw [sampleVariance_all_zero xs h2 hz] at hstd
    obtain ⟨s, hs, _, hss⟩ := hstd
    rw [hs, mul_self_eq_zero.mp hss]
  unfold run_monte_carlo_simulation
  rw [isEmpty_false_of_ne_nil xs hne]
  refine ⟨_, rfl, ?_, ?_⟩
  · intro hnil
    have hlen0 := congrArg List.length hnil
    simp at hlen0
    omega
  · intro r hr
    rw [List.mem_map] at hr
    obtain ⟨j, hj, rfl⟩ := hr
    have hcells : ∀ x ∈ (List.range n).map
        (fun i => pathPrice (sampleMean xs) sigma (z i) v (j + 1)),
        x = some v := by
      intro x hx
      rw [List.mem_map] at hx
      obtain ⟨i, hi, rfl⟩ := hx
      rw [hmu, hsig, pathPrice_zero_stats]
    have hcne : (List.range n).map
        (fun i => pathPrice (sampleMean xs) sigma (z i) v (j + 1)) ≠ [] := by
      simp [List.range_eq_nil, hn.ne']
    refine ⟨?_, ?_, ?_, ?_, ?_⟩ <;>
      exact quantileLinear_const _ v _ hcells hcne (by norm_num) (by norm_num)

/-- Witness for C5: two zero returns, standard deviation 0, one year, one
path, starting value 100 — the forecast is ok, non-empty and flat at 100. -/
theorem monte_carlo_zero_returns_flat_witness :
    ∃ rows, run_monte_carlo_simulation (fun _ _ => 0) [0, 0] (some 0) 1 100 1 =
      Except.ok rows ∧ rows ≠ [] ∧
      ∀ r ∈ rows, r.median = some 100 ∧ r.upper_bound_75 = some 100 ∧
        r.lower_bound_25 = some 100 ∧ r.upper_bound_95 = some 100 ∧
        r.lower_bound_05 = some 100 :=
  monte_carlo_zero_returns_flat (fun _ _ => 0) [0, 0] (some 0) 1 100 1
    (by norm_num) (by decide)
    (by
      unfold IsStd
      rw [sampleVariance_all_zero [0, 0] (by norm_num) (by decide)]
      exact ⟨0, rfl, le_rfl, by norm_num⟩)
    (by norm_num) (by norm_num)

/-- C6: the risk analysis returns `(None, None)` whenever the price table
has fewer than 2 rows, or fewer than 2 return observations survive the
differencing and NaN-dropping — for every abstract logarithm and every
abstract metrics computation. -/
theorem risk_report_insufficient_data {M : Type} (log : ℚ → Option ℚ)
    (compute_metrics : List (List ℚ) → List ℚ → M)
    (ncols : Nat) (rows : List (List ℚ)) (weights : List ℚ)
    (h : rows.length < 2 ∨ (dropna (logReturnRows log rows)).length < 2) :
    generate_risk_report log compute_metrics ncols rows weights =
      (none, none) := by
  simp only [generate_risk_report]
  by_cases h1 : rows.length < 2 ∨ ncols < 1
  · rw [if_pos h1]
  · rw [if_neg h1]
    rcases h with h | h
    · exact absurd (Or.inl h) h1
    · rw [if_pos h]

/-- Witness for C6: a single-row price table has fewer than 2 rows, so the
report is `(None, None)`. -/
theorem risk_report_insufficient_data_witness :
    generate_risk_report (fun _ => (none : Option ℚ)) (fun _ _ => (0 : ℚ))
      1 [[1]] [1] = (none, none) :=
  risk_report_insufficient_data (fun _ => (none : Option ℚ))
    (fun _ _ => (0 : ℚ)) 1 [[1]] [1] (Or.inl (by norm_num))

/-- Counterexample for C5: for the non-empty single-observation series `[0]`
the sample standard deviation is NaN (ddof = 1), every simulated value is
NaN, and the quantile columns are NaN rather than the starting value — the
claim fails for a non-empty series of fewer than 2 returns. -/
theorem monte_carlo_zero_returns_single_observation :
    IsStd [(0 : ℚ)] none ∧
    ∃ rows r, run_monte_carlo_simulation (fun _ _ => 0) [(0 : ℚ)] none 1 100 1 =
      Except.ok rows ∧ rows.head? = some r ∧ r.median ≠ some 100 := by
  refine ⟨rfl, ?_⟩
  refine ⟨_, ⟨none, none, none, none, none⟩, rfl, ?_, ?_⟩
  · rfl
  · simp

end Backtest
